import Mathlib

/-!
Verification development for the melody composition engine
(`src/melody.py`, `src/generator.py`).

The Python module uses the global `random` generator.  We embed that
generator as an explicit state (`Rng`) threaded through every function, in
the order the source consumes it.  The concrete pseudorandom update is a
linear congruential generator; no claim below depends on the distribution
of the stream, only on how the source consumes and propagates it.

Quantities that are Python floats in the source (`start_time`, `duration`,
probabilities, the uniqueness score) are modelled as rationals; MIDI
pitches and velocities are integers.  `Motif.get_hash` (an md5 digest of
`str(intervals)` truncated to 8 hex characters) is modelled as the
interval list itself: the digest is a function of exactly that list, and
no property proved here relies on collisions of the truncated digest.
-/

set_option allowUnsafeReducibility true in
attribute [semireducible] Rat.add Rat.sub Rat.mul Rat.inv Rat.div Rat.blt

namespace Music

/-- Model of the state of Python's global `random` generator. -/
structure Rng where
  state : Nat
deriving DecidableEq, Repr, Inhabited

/-- One step of the generator (a 31-bit linear congruential update). -/
def Rng.next (g : Rng) : Nat × Rng :=
  let s := (g.state * 1103515245 + 12345) % 2147483648
  (s / 65536, ⟨s⟩)

/-- `random.seed(s)`: the state after seeding depends only on `s`. -/
def mkRng (seed : Int) : Rng :=
  ⟨(seed.natAbs + 17) % 2147483648⟩

/-- `random.random()`: a rational in `[0, 1)`. -/
def randFloat (g : Rng) : ℚ × Rng :=
  let (n, g') := g.next
  (((n % 1000 : ℕ) : ℚ) / 1000, g')

/-- `random.choice(l)` (call sites always pass a non-empty list; `d` is a
default that is never reached there). -/
def choose {α : Type} (l : List α) (d : α) (g : Rng) : α × Rng :=
  let (n, g') := g.next
  (l.getD (n % l.length) d, g')

/-- `random.randint(a, b)` on naturals with `a ≤ b` at every call site. -/
def randIntNat (a b : Nat) (g : Rng) : Nat × Rng :=
  let (n, g') := g.next
  if a ≤ b then (a + n % (b - a + 1), g') else (a, g')

/-- `random.randint(a, b)` on integers with `a ≤ b` at every call site. -/
def randInt (a b : Int) (g : Rng) : Int × Rng :=
  let (n, g') := g.next
  let span := b - a + 1
  if 0 < span then (a + (n % span.toNat : Nat), g') else (a, g')

/-- Selection sampling used to model `random.sample(range n, k)`:
repeatedly pick a position in the remaining pool and remove it. -/
def sampleGo : Nat → List Nat → Rng → List Nat × Rng
  | 0, _, g => ([], g)
  | k + 1, avail, g =>
    let ng := g.next
    let i := ng.1 % avail.length
    let x := avail.getD i 0
    let rest := sampleGo k (avail.eraseIdx i) ng.2
    (x :: rest.1, rest.2)

/-- `random.sample(range(n), k)`: `k` distinct naturals below `n`. -/
def sampleRange (n k : Nat) (g : Rng) : List Nat × Rng :=
  sampleGo k (List.range n) g

/-! ### `generator.py`: note map, scale tables, `get_scale_notes` -/

/-- Association-list lookup mirroring Python `dict.get`. -/
def lookupStr {α : Type} : List (String × α) → String → Option α
  | [], _ => none
  | (k, v) :: rest, key => if k = key then some v else lookupStr rest key

/-- `NOTE_MAP` from `generator.py`. -/
def NOTE_MAP : List (String × Int) :=
  [("C", 60), ("C#", 61), ("Db", 61),
   ("D", 62), ("D#", 63), ("Eb", 63),
   ("E", 64),
   ("F", 65), ("F#", 66), ("Gb", 66),
   ("G", 67), ("G#", 68), ("Ab", 68),
   ("A", 69), ("A#", 70), ("Bb", 70),
   ("B", 71)]

/-- `SCALES` from `generator.py`. -/
def SCALES : List (String × List Int) :=
  [("major", [0, 2, 4, 5, 7, 9, 11]),
   ("minor", [0, 2, 3, 5, 7, 8, 10]),
   ("pentatonic_major", [0, 2, 4, 7, 9]),
   ("pentatonic_minor", [0, 3, 5, 7, 10]),
   ("dorian", [0, 2, 3, 5, 7, 9, 10])]

/-- `get_scale_notes` from `generator.py`: unknown roots fall back to
pitch 60 ("C"), unknown modes to the major interval table. -/
def get_scale_notes (root mode : String) (octave : Int) : List Int :=
  let root_midi := (lookupStr NOTE_MAP root).getD 60 + (octave - 4) * 12
  let scale_intervals := (lookupStr SCALES mode).getD [0, 2, 4, 5, 7, 9, 11]
  scale_intervals.map (fun i => root_midi + i)

/-! ### Data model from `melody.py` -/

/-- `Contour` enumeration. -/
inductive Contour where
  | ARCH | DESCENDING | ASCENDING | WAVE | STATIC
deriving DecidableEq, Repr, Inhabited

/-- `list(Contour)` in declaration order. -/
def contourList : List Contour :=
  [.ARCH, .DESCENDING, .ASCENDING, .WAVE, .STATIC]

/-- `MotifDevelopment` enumeration. -/
inductive MotifDevelopment where
  | EXACT | TRANSPOSED | INVERTED | RETROGRADE | AUGMENTED | DIMINISHED | VARIED
deriving DecidableEq, Repr, Inhabited

/-- `list(MotifDevelopment)` in declaration order. -/
def developmentList : List MotifDevelopment :=
  [.EXACT, .TRANSPOSED, .INVERTED, .RETROGRADE, .AUGMENTED, .DIMINISHED, .VARIED]

/-- `MelodyParams` (field defaults as in the source). -/
structure MelodyParams where
  root_note : String := "C"
  mode : String := "major"
  tempo : Int := 70
  duration_seconds : Int := 60
  octave : Int := 5
  contour : Contour := .ARCH
  note_density : ℚ := 1/2
  use_motifs : Bool := true
  motif_length : Nat := 4
  development_probability : ℚ := 3/5
  max_repetition : Nat := 2
  variation_amount : ℚ := 3/10
  time_signature : Int × Int := (4, 4)
  syncopation : ℚ := 1/5
  velocity_range : Int × Int := (50, 80)
  legato : ℚ := 7/10
deriving DecidableEq, Repr, Inhabited

/-- `MelodyNote`. -/
structure MelodyNote where
  pitch : Int
  start_time : ℚ
  duration : ℚ
  velocity : Int
deriving DecidableEq, Repr, Inhabited

/-- `Motif`.  `uid` is ghost provenance information absent from the
source: each `Motif` object the source constructs gets a fresh `uid`, so
that object identity (which Python tracks by reference) is expressible
in this value-based embedding. -/
structure Motif where
  notes : List MelodyNote := []
  contour : List Int := []
  uid : Nat := 0
deriving DecidableEq, Repr, Inhabited

/-- `Melody`. -/
structure Melody where
  notes : List MelodyNote := []
  motifs : List Motif := []
  params : MelodyParams := {}
  uniqueness_score : ℚ := 0
deriving DecidableEq, Repr, Inhabited

/-- Consecutive pitch deltas of a pitch list. -/
def intervalsOf : List Int → List Int
  | a :: b :: rest => (b - a) :: intervalsOf (b :: rest)
  | _ => []

/-- `Motif.get_hash`: the pattern-identity key, modelled as the interval
signature itself (the md5 digest in the source is a function of exactly
this list). -/
def Motif.get_hash (m : Motif) : List Int :=
  intervalsOf (m.notes.map (·.pitch))

/-- `min(scale, key=lambda x: abs(x - target))`: the first element of
`scale` at minimal distance from `target` (Python `min` keeps the first
minimum).  Call sites always pass a non-empty scale. -/
def snapToScale (scale : List Int) (target : Int) : Int :=
  match scale with
  | [] => target
  | s :: rest =>
    rest.foldl (fun best x => if (x - target).natAbs < (best - target).natAbs then x else best) s

/-! ### `calculate_uniqueness` -/

/-- The 3-interval pattern of every 4-note sliding window
(`melody.py` lines 269–275). -/
def patternsOf (notes : List MelodyNote) : List (List Int) :=
  (List.range (notes.length - 3)).map fun i =>
    (List.range 3).map fun j =>
      (notes.getD (i + j + 1) default).pitch - (notes.getD (i + j) default).pitch

/-- `calculate_uniqueness`. -/
def calculate_uniqueness (melody : Melody) : ℚ :=
  if melody.notes.length < 4 then 1
  else
    let patterns := patternsOf melody.notes
    if patterns = [] then 1
    else ((patterns.dedup.length : ℕ) : ℚ) / ((patterns.length : ℕ) : ℚ)

/-! ### `generate_contour` -/

/-- `[random.choice(l) for _ in range(len)]`, consumed left to right. -/
def randChoiceList (l : List Int) : Nat → Rng → List Int × Rng
  | 0, g => ([], g)
  | k + 1, g =>
    let (x, g') := choose l 0 g
    let (rest, g'') := randChoiceList l k g'
    (x :: rest, g'')

/-- The WAVE branch of `generate_contour`: direction flips whenever
`i % 3 == 0`, magnitude drawn from `{1, 2}`. -/
def waveGo (dir : Int) (i : Nat) : Nat → Rng → List Int × Rng
  | 0, g => ([], g)
  | r + 1, g =>
    let dir' := if i % 3 = 0 then -dir else dir
    let (m, g') := choose [1, 2] 0 g
    let (rest, g'') := waveGo dir' (i + 1) r g'
    (dir' * m :: rest, g'')

/-- `generate_contour` from `melody.py`. -/
def generate_contour (contour_type : Contour) (length : Nat) (g : Rng) :
    List Int × Rng :=
  match contour_type with
  | .ARCH =>
    let mid := length / 2
    let (rise, g1) := randChoiceList [1, 2, 3] mid g
    let (fall, g2) := randChoiceList [-1, -2, -3] (length - mid) g1
    (rise ++ fall, g2)
  | .DESCENDING => randChoiceList [-1, -2, 0, -1] length g
  | .ASCENDING => randChoiceList [1, 2, 0, 1] length g
  | .WAVE => waveGo 1 0 length g
  | .STATIC => randChoiceList [-1, 0, 1, 0] length g

/-! ### `generate_motif` -/

/-- The note-building loop of `generate_motif`: walk the contour from
`current_pitch`, snap to the scale except with probability 1/10 (color
notes), draw a duration (syncopated palette with probability
`syncopation`), draw a velocity, scale the stored duration by `legato`. -/
def genMotifGo (scale : List Int) (params : MelodyParams) :
    List Int → Int → ℚ → Rng → List MelodyNote × Rng
  | [], _, _, g => ([], g)
  | interval :: rest, current_pitch, current_time, g =>
    let target_pitch := current_pitch + interval
    let closest_scale_pitch := snapToScale scale target_pitch
    let (r1, g1) := randFloat g
    let pitch := if r1 < 1/10 then target_pitch else closest_scale_pitch
    let (r2, g2) := randFloat g1
    let (duration, g3) :=
      if r2 < params.syncopation then choose [(1 : ℚ)/2, 3/4] 0 g2
      else choose [(1 : ℚ)/2, 1, 3/2] 0 g2
    let (velocity, g4) := randInt params.velocity_range.1 params.velocity_range.2 g3
    let note : MelodyNote :=
      ⟨pitch, current_time, duration * params.legato, velocity⟩
    let (restNotes, g5) := genMotifGo scale params rest pitch (current_time + duration) g4
    (note :: restNotes, g5)

/-- `generate_motif` from `melody.py`.  `uid` is the ghost identity of the
freshly constructed `Motif` object. -/
def generate_motif (uid : Nat) (scale : List Int) (start_pitch : Int)
    (length : Nat) (contour_type : Contour) (params : MelodyParams)
    (g : Rng) : Motif × Rng :=
  let cg := generate_contour contour_type length g
  let ng := genMotifGo scale params cg.1 start_pitch 0 cg.2
  (⟨ng.1, cg.1, uid⟩, ng.2)

/-! ### `develop_motif` -/

/-- The per-note loop of `develop_motif`.  `prevOrig` is
`motif.notes[i-1]`, the head of `acc` is `new_notes[-1]`, and
`first_start` is `motif.notes[0].start_time`. -/
def devGo (development : MotifDevelopment) (scale : List Int)
    (start_time : ℚ) (transposition : Int) (first_start : ℚ) :
    List MelodyNote → Option MelodyNote → List MelodyNote → Rng →
    List MelodyNote × Rng
  | [], _, acc, g => (acc.reverse, g)
  | note :: rest, prevOrig, acc, g =>
    let (new_pitch, g1) :=
      match development with
      | .TRANSPOSED => (snapToScale scale (note.pitch + transposition), g)
      | .INVERTED =>
        match prevOrig, acc with
        | some po, lastNew :: _ => (lastNew.pitch - (note.pitch - po.pitch), g)
        | _, _ => (note.pitch, g)
      | .VARIED =>
        let (r, g') := randFloat g
        if r < 3/10 then
          let (d, g'') := choose [-2, -1, 1, 2] 0 g'
          (snapToScale scale (note.pitch + d), g'')
        else (note.pitch, g')
      | _ => (note.pitch, g)
    let new_duration :=
      match development with
      | .AUGMENTED => note.duration * (3/2)
      | .DIMINISHED => note.duration * (3/4)
      | _ => note.duration
    let newNote : MelodyNote :=
      ⟨new_pitch, start_time + (note.start_time - first_start), new_duration,
       note.velocity⟩
    devGo development scale start_time transposition first_start rest
      (some note) (newNote :: acc) g1

/-- The RETROGRADE time-recomputation pass: sequential start times from
`t` using each note's (unchanged) duration. -/
def retimeGo (t : ℚ) : List MelodyNote → List MelodyNote
  | [] => []
  | n :: rest => { n with start_time := t } :: retimeGo (t + n.duration) rest

/-- `develop_motif` from `melody.py`. -/
def develop_motif (uid : Nat) (motif : Motif)
    (development : MotifDevelopment) (scale : List Int) (start_time : ℚ)
    (transposition : Int) (g : Rng) : Motif × Rng :=
  let first_start := (motif.notes.headD default).start_time
  let built :=
    devGo development scale start_time transposition first_start motif.notes
      none [] g
  let new_notes :=
    if development = .RETROGRADE then retimeGo start_time built.1.reverse
    else built.1
  (⟨new_notes, motif.contour, uid⟩, built.2)

/-! ### `optimize_melody` -/

/-- The inner mutation loop of `optimize_melody`: for each sampled index,
replace the note's pitch by `pitch + random.choice([-2,-1,1,2])` snapped
to the scale, keeping start time, duration and velocity. -/
def mutateNotesGo (scale : List Int) :
    List Nat → List MelodyNote → Rng → List MelodyNote × Rng
  | [], notes, g => (notes, g)
  | idx :: rest, notes, g =>
    let note := notes.getD idx default
    let (d, g1) := choose [-2, -1, 1, 2] 0 g
    let new_pitch := snapToScale scale (note.pitch + d)
    mutateNotesGo scale rest
      (notes.set idx ⟨new_pitch, note.start_time, note.duration, note.velocity⟩) g1

/-- One candidate construction in `optimize_melody` (lines 300–320):
clone `base`'s note list, draw `num_changes ∈ [1, max 1 (n/4)]`, sample
that many distinct indices, and mutate the pitches there.  The source
always passes the function's original `melody` argument as `base`. -/
def optStep (scale : List Int) (base : Melody) (g : Rng) : Melody × Rng :=
  let n := base.notes.length
  let nc := randIntNat 1 (max 1 (n / 4)) g
  let idx := sampleRange n (min nc.1 n) nc.2
  let mt := mutateNotesGo scale idx.1 base.notes idx.2
  ({ notes := mt.1, motifs := base.motifs, params := base.params }, mt.2)

/-- The iteration loop of `optimize_melody`.  `melody` is the original
input (the base of every candidate, as in the source); `best`/`bestScore`
are the accept-state.  Acceptance: score strictly improved, or — only
when it did not — `random.random() < 0.1` (the source's `or` is
short-circuiting, so the extra random draw happens only on the second
test).  The last component collects each iteration's candidate (ghost
trace used by the statements below). -/
def optLoop (scale : List Int) (melody : Melody) :
    Nat → Melody → ℚ → Rng → Melody × ℚ × Rng × List Melody
  | 0, best, bestScore, g => (best, bestScore, g, [])
  | k + 1, best, bestScore, g =>
    let cg := optStep scale melody g
    let new_score := calculate_uniqueness cg.1
    let next :=
      if bestScore < new_score then optLoop scale melody k cg.1 new_score cg.2
      else
        let r := randFloat cg.2
        if r.1 < 1/10 then optLoop scale melody k cg.1 new_score r.2
        else optLoop scale melody k best bestScore r.2
    (next.1, next.2.1, next.2.2.1, cg.1 :: next.2.2.2)

/-- `optimize_melody` together with its final generator state and the
ghost candidate trace. -/
def optimize_melody_run (melody : Melody) (max_iterations : Nat) (g : Rng) :
    Melody × Rng × List Melody :=
  let best_score := calculate_uniqueness melody
  let scale :=
    get_scale_notes melody.params.root_note melody.params.mode melody.params.octave
  let r := optLoop scale melody max_iterations melody best_score g
  ({ r.1 with uniqueness_score := r.2.1 }, r.2.2.1, r.2.2.2)

/-- `optimize_melody` from `melody.py` (the source's default budget is
`max_iterations = 10`). -/
def optimize_melody (melody : Melody) (max_iterations : Nat) (g : Rng) :
    Melody × Rng :=
  ((optimize_melody_run melody max_iterations g).1,
   (optimize_melody_run melody max_iterations g).2.1)

/-- Modelled from the spec (§4.7), exactly as claim C2 words it: each
iteration's candidate clones the note list of the *current best* melody
(the most recently accepted state) rather than the original input. -/
def optLoopClaimed (scale : List Int) :
    Nat → Melody → ℚ → Rng → Melody × ℚ × Rng
  | 0, best, bestScore, g => (best, bestScore, g)
  | k + 1, best, bestScore, g =>
    let cg := optStep scale best g
    let new_score := calculate_uniqueness cg.1
    if bestScore < new_score then optLoopClaimed scale k cg.1 new_score cg.2
    else
      let r := randFloat cg.2
      if r.1 < 1/10 then optLoopClaimed scale k cg.1 new_score r.2
      else optLoopClaimed scale k best bestScore r.2

/-- Modelled from the spec: `optimize_melody` as claim C2 describes it
(candidates derived from the accepted state). -/
def optimize_melody_claimed (melody : Melody) (max_iterations : Nat)
    (g : Rng) : Melody × Rng :=
  let best_score := calculate_uniqueness melody
  let scale :=
    get_scale_notes melody.params.root_note melody.params.mode melody.params.octave
  let r := optLoopClaimed scale max_iterations melody best_score g
  ({ r.1 with uniqueness_score := r.2.1 }, r.2.2)

/-! ### `generate_melody` -/

/-- Ledger lookup: `pattern_counts.get(h, 0)`. -/
def countOf : List (List Int × Nat) → List Int → Nat
  | [], _ => 0
  | (k, v) :: rest, h => if k = h then v else countOf rest h

/-- Ledger increment: `pattern_counts[h] = pattern_counts.get(h, 0) + 1`. -/
def bumpCount : List (List Int × Nat) → List Int → List (List Int × Nat)
  | [], h => [(h, 1)]
  | (k, v) :: rest, h =>
    if k = h then (k, v + 1) :: rest else (k, v) :: bumpCount rest h

/-- The mutable state of `generate_melody`'s assembly loop.  The
`ghost_notes` and `ghost_ledger` fields record provenance (which motif
`uid` produced each appended note / each ledger increment); they mirror
`melody.notes` and the sequence of ledger increments and exist only for
the statements below. -/
structure GenState where
  g : Rng
  current_time : ℚ
  motifs_used : List Motif
  melody_notes : List MelodyNote
  melody_motifs : List Motif
  pattern_counts : List (List Int × Nat)
  next_uid : Nat
  ghost_notes : List (Nat × MelodyNote)
  ghost_ledger : List (Nat × List Int)
deriving Repr

/-- The originate branch of the assembly loop: 30% chance of a random
contour override, start pitch from the last emitted note (or the scale's
3rd degree), and the fresh motif joins the development pool. -/
def genOriginate (params : MelodyParams) (scale : List Int)
    (last_notes : List MelodyNote) (motifs_used : List Motif) (uid : Nat)
    (g : Rng) : Motif × List Motif × Rng × Nat :=
  let r := randFloat g
  let cc :=
    if r.1 < 3/10 then choose contourList .ARCH r.2 else (params.contour, r.2)
  let start_pitch :=
    match last_notes.getLast? with
    | some n => n.pitch
    | none => scale.getD 2 0
  let mg :=
    generate_motif uid scale start_pitch params.motif_length cc.1 params cc.2
  (mg.1, motifs_used ++ [mg.1], mg.2, uid + 1)

/-- The motif-selection phase of one loop iteration (lines 369–396):
develop a random prior motif with probability `development_probability`
(the extra random draws happen only on the paths the source takes), else
originate a fresh one.  Returns the candidate motif, the updated pool,
the generator, and the next fresh uid. -/
def genSelect (params : MelodyParams) (scale : List Int) (s : GenState) :
    Motif × List Motif × Rng × Nat :=
  if params.use_motifs && !s.motifs_used.isEmpty then
    let r := randFloat s.g
    if r.1 < params.development_probability then
      let src := choose s.motifs_used default r.2
      let dev := choose developmentList .EXACT src.2
      let tp :=
        if dev.1 = .TRANSPOSED then choose [(0 : Int), 2, 4, 5, 7] 0 dev.2
        else (0, dev.2)
      let dm :=
        develop_motif s.next_uid src.1 dev.1 scale s.current_time tp.1 tp.2
      (dm.1, s.motifs_used, dm.2, s.next_uid + 1)
    else genOriginate params scale s.melody_notes s.motifs_used s.next_uid r.2
  else genOriginate params scale s.melody_notes s.motifs_used s.next_uid s.g

/-- The ledger/append phase of one loop iteration (lines 398–417), for
the selected motif `sel`: increment the repetition ledger, append the
time-shifted notes and the motif only while the count is within
`max_repetition`, and advance time by at least one measure. -/
def genAppend (params : MelodyParams) (bpm : Int) (s : GenState)
    (sel : Motif × List Motif × Rng × Nat) : GenState :=
  let motif := sel.1
  let motif_hash := motif.get_hash
  let pattern_counts := bumpCount s.pattern_counts motif_hash
  let ghost_ledger := s.ghost_ledger ++ [(motif.uid, motif_hash)]
  let app :=
    if countOf pattern_counts motif_hash ≤ params.max_repetition then
      let first_start := (motif.notes.headD default).start_time
      let adjusted := motif.notes.map fun n =>
        ({ n with start_time := s.current_time + (n.start_time - first_start) } :
          MelodyNote)
      (s.melody_notes ++ adjusted, s.melody_motifs ++ [motif],
       s.ghost_notes ++ adjusted.map fun n => (motif.uid, n))
    else (s.melody_notes, s.melody_motifs, s.ghost_notes)
  let motif_duration := (motif.notes.map (·.duration)).sum
  { g := sel.2.2.1, current_time := s.current_time + max motif_duration (bpm : ℚ),
    motifs_used := sel.2.1, melody_notes := app.1,
    melody_motifs := app.2.1, pattern_counts := pattern_counts,
    next_uid := sel.2.2.2, ghost_notes := app.2.2,
    ghost_ledger := ghost_ledger }

/-- One iteration of `generate_melody`'s while-loop (lines 368–417). -/
def genStep (params : MelodyParams) (scale : List Int) (bpm : Int)
    (s : GenState) : GenState :=
  genAppend params bpm s (genSelect params scale s)

/-- The while-loop of `generate_melody`, with explicit fuel.  Each
iteration advances `current_time` by at least one measure, so the fuel
`generate_melody` supplies is enough whenever the measure length is
positive; the loop re-checks its guard every round either way. -/
def genLoop (params : MelodyParams) (scale : List Int) (bpm : Int)
    (total_beats : Int) : Nat → GenState → GenState
  | 0, s => s
  | fuel + 1, s =>
    if s.current_time < (total_beats : ℚ) then
      genLoop params scale bpm total_beats fuel (genStep params scale bpm s)
    else s

/-- `generate_melody`, returning also the assembly loop's final state
(for the ghost provenance fields) and the final generator state.  With an
explicit seed the source reseeds the global generator, so the incoming
state `g0` is ignored. -/
def generate_melody_run (params : MelodyParams) (seed : Option Int)
    (g0 : Rng) : Melody × GenState × Rng :=
  let g := match seed with
    | some s => mkRng s
    | none => g0
  let scale := get_scale_notes params.root_note params.mode params.octave
  let beats_per_measure := params.time_signature.1
  let total_beats := (params.duration_seconds * params.tempo).tdiv 60
  let im :=
    generate_motif 0 scale (scale.getD 2 0) params.motif_length params.contour
      params g
  let s0 : GenState :=
    { g := im.2, current_time := 0, motifs_used := [im.1],
      melody_notes := [], melody_motifs := [], pattern_counts := [],
      next_uid := 1, ghost_notes := [], ghost_ledger := [] }
  let s := genLoop params scale beats_per_measure total_beats
    (total_beats.toNat + 1) s0
  let melody : Melody :=
    { notes := s.melody_notes, motifs := s.melody_motifs, params := params }
  let r := optimize_melody melody 10 s.g
  (r.1, s, r.2)

/-- `generate_melody` from `melody.py`. -/
def generate_melody (params : MelodyParams) (seed : Option Int) (g0 : Rng) :
    Melody :=
  (generate_melody_run params seed g0).1

/-! ### Genre presets and `generate_melody_for_genre`

`GENRE_PRESETS` is a module-level dict of `MelodyParams` objects.  Because
`generate_melody_for_genre` assigns to fields of the object it fetched
from the dict, the dict entries are mutable shared state; the model makes
that heap explicit as a `PresetStore` value threaded through the call. -/

/-- The five preset records, with the field values of `melody.py`
lines 471–519 (unlisted fields keep the dataclass defaults). -/
structure PresetStore where
  relaxation : MelodyParams
  ambient : MelodyParams
  meditation : MelodyParams
  lofi : MelodyParams
  classical : MelodyParams
deriving DecidableEq, Repr

/-- The initial contents of `GENRE_PRESETS`. -/
def GENRE_PRESETS_init : PresetStore where
  relaxation :=
    { tempo := 65, mode := "major", contour := .ARCH, note_density := 2/5,
      syncopation := 1/10, velocity_range := (40, 65), legato := 9/10 }
  ambient :=
    { tempo := 60, mode := "dorian", contour := .WAVE, note_density := 3/10,
      syncopation := 1/5, velocity_range := (35, 55), legato := 1 }
  meditation :=
    { tempo := 50, mode := "pentatonic_major", contour := .STATIC,
      note_density := 1/5, syncopation := 1/20, velocity_range := (30, 50),
      legato := 1 }
  lofi :=
    { tempo := 75, mode := "minor", contour := .DESCENDING, note_density := 1/2,
      syncopation := 2/5, velocity_range := (50, 75), legato := 7/10 }
  classical :=
    { tempo := 80, mode := "major", contour := .ARCH, note_density := 3/5,
      syncopation := 3/20, velocity_range := (45, 90), legato := 4/5,
      use_motifs := true, development_probability := 7/10 }

/-- `GENRE_PRESETS.get(genre, GENRE_PRESETS["relaxation"])`: an unknown
genre name aliases the relaxation record. -/
def presetGet (st : PresetStore) (genre : String) : MelodyParams :=
  if genre = "relaxation" then st.relaxation
  else if genre = "ambient" then st.ambient
  else if genre = "meditation" then st.meditation
  else if genre = "lofi" then st.lofi
  else if genre = "classical" then st.classical
  else st.relaxation

/-- Writing back through the alias obtained by `presetGet`: field
assignments on the fetched object land in the corresponding dict entry
(the relaxation entry when the genre is unknown). -/
def presetSet (st : PresetStore) (genre : String) (p : MelodyParams) :
    PresetStore :=
  if genre = "relaxation" then { st with relaxation := p }
  else if genre = "ambient" then { st with ambient := p }
  else if genre = "meditation" then { st with meditation := p }
  else if genre = "lofi" then { st with lofi := p }
  else if genre = "classical" then { st with classical := p }
  else { st with relaxation := p }

/-- `generate_melody_for_genre`: fetches the preset object, assigns
`duration_seconds` and `root_note` on it (mutating the shared dict entry,
which the returned `PresetStore` reflects), and generates. -/
def generate_melody_for_genre (st : PresetStore) (genre : String)
    (duration_seconds : Int) (root_note : String) (seed : Option Int)
    (g : Rng) : Melody × PresetStore :=
  let params0 := presetGet st genre
  let params :=
    { params0 with duration_seconds := duration_seconds, root_note := root_note }
  let st' := presetSet st genre params
  (generate_melody params seed g, st')

/-! ## Helper lemmas -/

theorem patternsOf_length (notes : List MelodyNote) :
    (patternsOf notes).length = notes.length - 3 := by
  simp [patternsOf]

/-- Reflecting every pitch through a fixed center negates the interval
signature. -/
theorem intervalsOf_reflect (c : Int) :
    ∀ ps : List Int,
      intervalsOf (ps.map (fun x => 2 * c - x)) =
        (intervalsOf ps).map (fun x => -x)
  | [] => rfl
  | [_] => rfl
  | a :: b :: rest => by
    have ih := intervalsOf_reflect c (b :: rest)
    simp only [List.map_cons] at ih ⊢
    simp only [intervalsOf, ih, List.map_cons]
    have h : 2 * c - b - (2 * c - a) = -(b - a) := by ring
    rw [h]

theorem intervalsOf_append_last :
    ∀ (xs : List Int) (y x : Int), xs.getLast? = some x →
      intervalsOf (xs ++ [y]) = intervalsOf xs ++ [y - x]
  | [], _, _, h => by simp at h
  | [a], y, x, h => by
    simp only [List.getLast?_singleton, Option.some.injEq] at h
    subst h
    rfl
  | a :: b :: rest, y, x, h => by
    rw [List.getLast?_cons_cons] at h
    have ih := intervalsOf_append_last (b :: rest) y x h
    simp only [List.cons_append, List.append_eq, intervalsOf] at ih ⊢
    rw [ih]

/-- Reversing a pitch list reverses the negated interval signature. -/
theorem intervalsOf_reverse :
    ∀ ps : List Int,
      intervalsOf ps.reverse = ((intervalsOf ps).map (fun x => -x)).reverse
  | [] => rfl
  | [_] => rfl
  | a :: b :: rest => by
    have ih := intervalsOf_reverse (b :: rest)
    have hlast : ((b :: rest).reverse).getLast? = some b := by
      rw [List.getLast?_reverse]
      rfl
    calc intervalsOf ((a :: b :: rest).reverse)
        = intervalsOf ((b :: rest).reverse ++ [a]) := by
          simp [List.reverse_cons]
      _ = intervalsOf ((b :: rest).reverse) ++ [a - b] :=
          intervalsOf_append_last _ a b hlast
      _ = ((intervalsOf (b :: rest)).map (fun x => -x)).reverse ++ [a - b] := by
          rw [ih]
      _ = ((intervalsOf (a :: b :: rest)).map (fun x => -x)).reverse := by
          simp only [intervalsOf, List.map_cons, List.reverse_cons, neg_sub]

/-- The pitch chain produced by the INVERTED branch: each new pitch is
the previous new pitch minus the original interval. -/
def invChain (q p : Int) : List Int → List Int
  | [] => []
  | x :: xs => (q - (x - p)) :: invChain (q - (x - p)) x xs

theorem invChain_reflect (c : Int) :
    ∀ (p : Int) (xs : List Int),
      invChain (2 * c - p) p xs = xs.map (fun x => 2 * c - x)
  | _, [] => rfl
  | p, x :: xs => by
    simp only [invChain, List.map_cons]
    have h : 2 * c - p - (x - p) = 2 * c - x := by ring
    rw [h, invChain_reflect c x xs]

theorem devGo_inverted_pitches (scale : List Int) (t : ℚ) (tr : Int)
    (fs : ℚ) :
    ∀ (rest : List MelodyNote) (po lastNew : MelodyNote)
      (acc : List MelodyNote) (g : Rng),
      ((devGo .INVERTED scale t tr fs rest (some po) (lastNew :: acc) g).1).map
          (·.pitch) =
        ((lastNew :: acc).reverse).map (·.pitch) ++
          invChain lastNew.pitch po.pitch (rest.map (·.pitch))
  | [], _, _, _, _ => by simp [devGo, invChain]
  | note :: rest, po, lastNew, acc, g => by
    have ih :=
      devGo_inverted_pitches scale t tr fs rest note
        ⟨lastNew.pitch - (note.pitch - po.pitch),
         t + (note.start_time - fs), note.duration, note.velocity⟩
        (lastNew :: acc) g
    simp only [devGo, List.map_cons] at ih ⊢
    rw [ih]
    simp [invChain, List.reverse_cons]

/-- The INVERTED development reflects every pitch through the motif's
first pitch. -/
theorem develop_motif_inverted_pitches (uid : Nat) (motif : Motif)
    (scale : List Int) (t : ℚ) (tr : Int) (g : Rng) :
    ((develop_motif uid motif .INVERTED scale t tr g).1).notes.map (·.pitch) =
      (motif.notes.map (·.pitch)).map
        (fun x => 2 * (motif.notes.headD default).pitch - x) := by
  match h : motif.notes with
  | [] => simp [develop_motif, devGo, h]
  | n0 :: rest =>
    have hstep :
        devGo .INVERTED scale t tr n0.start_time (n0 :: rest) none [] g =
          devGo .INVERTED scale t tr n0.start_time rest (some n0)
            [⟨n0.pitch, t + (n0.start_time - n0.start_time), n0.duration,
              n0.velocity⟩] g := rfl
    have key := devGo_inverted_pitches scale t tr n0.start_time rest n0
      ⟨n0.pitch, t + (n0.start_time - n0.start_time), n0.duration, n0.velocity⟩
      [] g
    have hchain : invChain n0.pitch n0.pitch (rest.map (·.pitch)) =
        (rest.map (·.pitch)).map (fun x => 2 * n0.pitch - x) := by
      have h3 := invChain_reflect n0.pitch n0.pitch (rest.map (·.pitch))
      have h4 : 2 * n0.pitch - n0.pitch = n0.pitch := by ring
      rw [h4] at h3
      exact h3
    simp only [develop_motif, h, List.headD_cons]
    rw [if_neg (by decide : ¬ (MotifDevelopment.INVERTED = .RETROGRADE))]
    rw [hstep, key, hchain]
    simp only [List.map_cons, List.headD_cons, List.reverse_cons,
      List.reverse_nil, List.nil_append, List.map_nil, List.cons_append,
      List.map_map]
    have h5 : 2 * n0.pitch - n0.pitch = n0.pitch := by ring
    rw [h5]

theorem devGo_retro_pitches (scale : List Int) (t : ℚ) (tr : Int) (fs : ℚ) :
    ∀ (notes : List MelodyNote) (prevOrig : Option MelodyNote)
      (acc : List MelodyNote) (g : Rng),
      ((devGo .RETROGRADE scale t tr fs notes prevOrig acc g).1).map (·.pitch) =
        (acc.reverse).map (·.pitch) ++ notes.map (·.pitch)
  | [], _, _, _ => by simp [devGo]
  | note :: rest, prevOrig, acc, g => by
    have ih := devGo_retro_pitches scale t tr fs rest (some note)
      (⟨note.pitch, t + (note.start_time - fs), note.duration, note.velocity⟩ :: acc) g
    simp only [devGo, List.map_cons] at ih ⊢
    rw [ih]
    simp [List.reverse_cons]

theorem retimeGo_pitches (t : ℚ) :
    ∀ l : List MelodyNote, (retimeGo t l).map (·.pitch) = l.map (·.pitch)
  | [] => rfl
  | n :: rest => by
    simp only [retimeGo, List.map_cons, retimeGo_pitches (t + n.duration) rest]

/-- The RETROGRADE development reverses the pitch sequence. -/
theorem develop_motif_retro_pitches (uid : Nat) (motif : Motif)
    (scale : List Int) (t : ℚ) (tr : Int) (g : Rng) :
    ((develop_motif uid motif .RETROGRADE scale t tr g).1).notes.map (·.pitch) =
      (motif.notes.map (·.pitch)).reverse := by
  simp only [develop_motif]
  rw [if_pos trivial]
  rw [retimeGo_pitches, List.map_reverse]
  rw [devGo_retro_pitches scale t tr ((motif.notes.headD default).start_time)
    motif.notes none [] g]
  simp

theorem list_map_neg_eq_self {l : List Int}
    (h : l.map (fun x => -x) = l) : ∀ x ∈ l, x = 0 := by
  induction l with
  | nil => intro x hx; simp at hx
  | cons a rest ih =>
    simp only [List.map_cons, List.cons.injEq] at h
    intro x hx
    rcases List.mem_cons.mp hx with h1 | h2
    · omega
    · exact ih h.2 x h2

/-! ## Claim theorems -/

/-- C6: `get_scale_notes` is total (it is a plain function in this
embedding, mirroring that the source raises no exception for any input);
the two fallbacks are independent: an unknown root behaves as root "C"
under any mode, and an unknown mode behaves as mode "major" under any
root; both `get_scale_notes "Z" "bogus" 4` and
`get_scale_notes "C" "major" 4` are `[60, 62, 64, 65, 67, 69, 71]`. -/
theorem get_scale_notes_fail_soft :
    get_scale_notes "C" "major" 4 = [60, 62, 64, 65, 67, 69, 71] ∧
    get_scale_notes "Z" "bogus" 4 = [60, 62, 64, 65, 67, 69, 71] ∧
    (∀ root mode octave, lookupStr NOTE_MAP root = none →
      get_scale_notes root mode octave = get_scale_notes "C" mode octave) ∧
    (∀ root mode octave, lookupStr SCALES mode = none →
      get_scale_notes root mode octave = get_scale_notes root "major" octave) := by
  refine ⟨rfl, rfl, ?_, ?_⟩
  · intro root mode octave h1
    simp only [get_scale_notes, h1]
    rfl
  · intro root mode octave h2
    simp only [get_scale_notes, h2]
    rfl

/-- Witness for C6, exercising each fallback on its own: an unknown root
with a known mode, and a known root with an unknown mode (the spec's
doubly-unknown example follows from the two literal conjuncts). -/
theorem get_scale_notes_fail_soft_witness :
    lookupStr NOTE_MAP "Z" = none ∧ lookupStr SCALES "bogus" = none ∧
    get_scale_notes "Z" "minor" 4 = get_scale_notes "C" "minor" 4 ∧
    get_scale_notes "D" "bogus" 4 = get_scale_notes "D" "major" 4 :=
  ⟨rfl, rfl, get_scale_notes_fail_soft.2.2.1 "Z" "minor" 4 rfl,
    get_scale_notes_fail_soft.2.2.2 "D" "bogus" 4 rfl⟩

/-- C4: `calculate_uniqueness` returns 1 for melodies with fewer than
4 notes, and otherwise the number of distinct 3-interval window patterns
divided by the number of windows (`n - 3`); the result always lies in
`[0, 1]`. -/
theorem calculate_uniqueness_spec (m : Melody) :
    calculate_uniqueness m =
      (if m.notes.length < 4 then 1
       else (((patternsOf m.notes).toFinset.card : ℕ) : ℚ) /
         (((m.notes.length - 3 : ℕ) : ℕ) : ℚ)) ∧
    0 ≤ calculate_uniqueness m ∧ calculate_uniqueness m ≤ 1 := by
  by_cases h : m.notes.length < 4
  · simp [calculate_uniqueness, h]
  · have hlen : (patternsOf m.notes).length = m.notes.length - 3 :=
      patternsOf_length m.notes
    have hpos : 0 < (patternsOf m.notes).length := by
      rw [hlen]; omega
    have hne : ¬ patternsOf m.notes = [] := by
      intro hnil; rw [hnil] at hpos; simp at hpos
    have hdedup : (patternsOf m.notes).dedup.length ≤ (patternsOf m.notes).length :=
      (List.dedup_sublist _).length_le
    have hcard : (patternsOf m.notes).toFinset.card = (patternsOf m.notes).dedup.length :=
      List.card_toFinset _
    have hq : (0 : ℚ) < ((patternsOf m.notes).length : ℚ) := by
      exact_mod_cast hpos
    constructor
    · simp only [calculate_uniqueness, h, if_false, hne, hcard, hlen]
    · constructor
      · simp only [calculate_uniqueness, h, if_false, hne]
        positivity
      · simp only [calculate_uniqueness, h, if_false, hne, ite_false]
        rw [div_le_one hq]
        exact_mod_cast hdedup

/-- C1: with an explicit seed, the result of `generate_melody` does not
depend on the ambient generator state: two independent invocations give
identical note lists and identical uniqueness scores. -/
theorem generate_melody_deterministic (params : MelodyParams) (s : Int)
    (g1 g2 : Rng) :
    (generate_melody params (some s) g1).notes =
      (generate_melody params (some s) g2).notes ∧
    (generate_melody params (some s) g1).uniqueness_score =
      (generate_melody params (some s) g2).uniqueness_score :=
  ⟨rfl, rfl⟩

/-- C5 (code bug): `generate_melody_for_genre` assigns `duration_seconds`
and `root_note` on the fetched preset object, so the shared
`GENRE_PRESETS` entry itself changes: after the call the relaxation
preset's fields differ from their values before the call, contradicting
the claim that every field of the params record is unchanged. -/
theorem genre_preset_mutation :
    GENRE_PRESETS_init.relaxation.duration_seconds = 60 ∧
    GENRE_PRESETS_init.relaxation.root_note = "C" ∧
    (generate_melody_for_genre GENRE_PRESETS_init "relaxation" 30 "D"
        (some 1) ⟨0⟩).2.relaxation.duration_seconds = 30 ∧
    (generate_melody_for_genre GENRE_PRESETS_init "relaxation" 30 "D"
        (some 1) ⟨0⟩).2.relaxation.root_note = "D" :=
  ⟨rfl, rfl, rfl, rfl⟩

/-- A motif whose two notes share a pitch: its interval signature `[0]`
is fixed by both inversion and retrograde. -/
def motifFlat : Motif :=
  { notes := [⟨60, 0, 1, 64⟩, ⟨60, 1, 1, 64⟩], contour := [0], uid := 0 }

/-- C7 counterexample: on a motif with two equal-pitch notes, both the
Inverted and the Retrograde development produce a motif with the *same*
interval signature (hence the same identity hash) as the source, so the
claim's universally quantified "differs" fails. -/
theorem develop_motif_inverted_retro_hash_cex :
    (develop_motif 1 motifFlat .INVERTED [60] 0 0 ⟨0⟩).1.get_hash =
      motifFlat.get_hash ∧
    (develop_motif 2 motifFlat .RETROGRADE [60] 0 0 ⟨0⟩).1.get_hash =
      motifFlat.get_hash :=
  ⟨rfl, rfl⟩

/-- C7 (amended): Inverted negates the source's interval signature and
Retrograde reverses the negated signature; consequently the identity hash
differs from the source's whenever, for Inverted, some interval is
nonzero, and, for Retrograde, the signature differs from the reverse of
its negation.  (A motif whose signature is fixed by the transformation —
e.g. an all-zero signature — keeps the same hash.) -/
theorem develop_motif_inverted_retro_hash (motif : Motif) (u1 u2 : Nat)
    (scale : List Int) (t1 t2 : ℚ) (tr1 tr2 : Int) (g1 g2 : Rng) :
    (develop_motif u1 motif .INVERTED scale t1 tr1 g1).1.get_hash =
      motif.get_hash.map (fun x => -x) ∧
    (develop_motif u2 motif .RETROGRADE scale t2 tr2 g2).1.get_hash =
      (motif.get_hash.map (fun x => -x)).reverse ∧
    ((∃ x ∈ motif.get_hash, x ≠ 0) →
      (develop_motif u1 motif .INVERTED scale t1 tr1 g1).1.get_hash ≠
        motif.get_hash) ∧
    (motif.get_hash ≠ (motif.get_hash.map (fun x => -x)).reverse →
      (develop_motif u2 motif .RETROGRADE scale t2 tr2 g2).1.get_hash ≠
        motif.get_hash) := by
  have hinv : (develop_motif u1 motif .INVERTED scale t1 tr1 g1).1.get_hash =
      motif.get_hash.map (fun x => -x) := by
    unfold Motif.get_hash
    rw [develop_motif_inverted_pitches]
    exact intervalsOf_reflect _ _
  have hret : (develop_motif u2 motif .RETROGRADE scale t2 tr2 g2).1.get_hash =
      (motif.get_hash.map (fun x => -x)).reverse := by
    unfold Motif.get_hash
    rw [develop_motif_retro_pitches]
    exact intervalsOf_reverse _
  refine ⟨hinv, hret, ?_, ?_⟩
  · rintro ⟨x, hx, hx0⟩ heq
    rw [hinv] at heq
    exact hx0 (list_map_neg_eq_self heq x hx)
  · intro hne heq
    rw [hret] at heq
    exact hne heq.symm

/-- Witness for C7 on a motif with signature `[2, -1]`, which satisfies
both side conditions. -/
theorem develop_motif_inverted_retro_hash_witness :
    (∃ x ∈ (Motif.mk [⟨60, 0, 1, 64⟩, ⟨62, 1, 1, 64⟩, ⟨61, 2, 1, 64⟩]
        [2, -1] 0).get_hash, x ≠ 0) ∧
    (Motif.mk [⟨60, 0, 1, 64⟩, ⟨62, 1, 1, 64⟩, ⟨61, 2, 1, 64⟩]
        [2, -1] 0).get_hash ≠
      ((Motif.mk [⟨60, 0, 1, 64⟩, ⟨62, 1, 1, 64⟩, ⟨61, 2, 1, 64⟩]
        [2, -1] 0).get_hash.map (fun x => -x)).reverse ∧
    (develop_motif 1 (Motif.mk [⟨60, 0, 1, 64⟩, ⟨62, 1, 1, 64⟩, ⟨61, 2, 1, 64⟩]
        [2, -1] 0) .INVERTED [60, 62] 0 0 ⟨0⟩).1.get_hash ≠
      (Motif.mk [⟨60, 0, 1, 64⟩, ⟨62, 1, 1, 64⟩, ⟨61, 2, 1, 64⟩]
        [2, -1] 0).get_hash ∧
    (develop_motif 2 (Motif.mk [⟨60, 0, 1, 64⟩, ⟨62, 1, 1, 64⟩, ⟨61, 2, 1, 64⟩]
        [2, -1] 0) .RETROGRADE [60, 62] 0 0 ⟨0⟩).1.get_hash ≠
      (Motif.mk [⟨60, 0, 1, 64⟩, ⟨62, 1, 1, 64⟩, ⟨61, 2, 1, 64⟩]
        [2, -1] 0).get_hash := by
  refine ⟨⟨2, by decide, by decide⟩, by decide, ?_, ?_⟩
  · exact (develop_motif_inverted_retro_hash
      (Motif.mk [⟨60, 0, 1, 64⟩, ⟨62, 1, 1, 64⟩, ⟨61, 2, 1, 64⟩] [2, -1] 0)
      1 2 [60, 62] 0 0 0 0 ⟨0⟩ ⟨0⟩).2.2.1 ⟨2, by decide, by decide⟩
  · exact (develop_motif_inverted_retro_hash
      (Motif.mk [⟨60, 0, 1, 64⟩, ⟨62, 1, 1, 64⟩, ⟨61, 2, 1, 64⟩] [2, -1] 0)
      1 2 [60, 62] 0 0 0 0 ⟨0⟩ ⟨0⟩).2.2.2 (by decide)

/-! ### Scale membership and frame lemmas for the optimizer -/

theorem snap_foldl_mem (target : Int) :
    ∀ (rest : List Int) (b : Int),
      rest.foldl (fun best x =>
        if (x - target).natAbs < (best - target).natAbs then x else best) b = b ∨
      rest.foldl (fun best x =>
        if (x - target).natAbs < (best - target).natAbs then x else best) b ∈ rest
  | [], _ => Or.inl rfl
  | x :: xs, b => by
    by_cases hc : (x - target).natAbs < (b - target).natAbs
    · rcases snap_foldl_mem target xs x with h | h
      · right
        simp only [List.foldl_cons, if_pos hc, h]
        exact List.mem_cons_self _ _
      · right
        simp only [List.foldl_cons, if_pos hc]
        exact List.mem_cons_of_mem _ h
    · rcases snap_foldl_mem target xs b with h | h
      · left
        simp only [List.foldl_cons, if_neg hc, h]
      · right
        simp only [List.foldl_cons, if_neg hc]
        exact List.mem_cons_of_mem _ h

/-- Snapping to a non-empty scale lands in the scale. -/
theorem snapToScale_mem {scale : List Int} (h : scale ≠ []) (target : Int) :
    snapToScale scale target ∈ scale := by
  match scale with
  | [] => exact absurd rfl h
  | s :: rest =>
    show snapToScale (s :: rest) target ∈ s :: rest
    simp only [snapToScale]
    rcases snap_foldl_mem target rest s with h1 | h1
    · rw [h1]; exact List.mem_cons_self _ _
    · exact List.mem_cons_of_mem _ h1

theorem lookupStr_getD_prop {α : Type} (P : α → Prop) :
    ∀ (l : List (String × α)) (key : String) (d : α),
      P d → (∀ p ∈ l, P p.2) → P ((lookupStr l key).getD d)
  | [], _, _, hd, _ => hd
  | (k, v) :: rest, key, d, hd, hl => by
    simp only [lookupStr]
    by_cases hk : k = key
    · simp only [if_pos hk, Option.getD_some]
      exact hl (k, v) (List.mem_cons_self _ _)
    · simp only [if_neg hk]
      exact lookupStr_getD_prop P rest key d hd
        (fun p hp => hl p (List.mem_cons_of_mem _ hp))

/-- Every scale the mapper can produce is non-empty (all interval tables
and the fallback table are non-empty). -/
theorem get_scale_notes_ne_nil (root mode : String) (octave : Int) :
    get_scale_notes root mode octave ≠ [] := by
  unfold get_scale_notes
  intro h
  rw [List.map_eq_nil_iff] at h
  exact lookupStr_getD_prop (fun l => l ≠ ([] : List Int)) SCALES mode
    [0, 2, 4, 5, 7, 9, 11] (by simp) (by decide) h

/-- The per-note frame relation the optimizer preserves: start time,
duration and velocity unchanged; pitch unchanged or a member of the
active scale. -/
def NoteFrame (scale : List Int) (x y : MelodyNote) : Prop :=
  x.start_time = y.start_time ∧ x.duration = y.duration ∧
  x.velocity = y.velocity ∧ (x.pitch = y.pitch ∨ x.pitch ∈ scale)

theorem noteFrame_refl (scale : List Int) (x : MelodyNote) :
    NoteFrame scale x x :=
  ⟨rfl, rfl, rfl, Or.inl rfl⟩

theorem forall₂_frame_refl (scale : List Int) (l : List MelodyNote) :
    List.Forall₂ (NoteFrame scale) l l :=
  List.forall₂_same.mpr (fun x _ => noteFrame_refl scale x)

theorem get_set_self_fin {α : Type} (l : List α) (i : Nat) (a : α)
    (h : i < (l.set i a).length) : (l.set i a).get ⟨i, h⟩ = a := by
  simp [List.get_eq_getElem]

theorem get_set_ne_fin {α : Type} (l : List α) {i j : Nat} (hne : i ≠ j)
    (a : α) (h : j < (l.set i a).length) (h2 : j < l.length) :
    (l.set i a).get ⟨j, h⟩ = l.get ⟨j, h2⟩ := by
  simp [List.get_eq_getElem, List.getElem_set_ne hne]

theorem mutateNotesGo_frame (scale : List Int) (hs : scale ≠ [])
    (base : List MelodyNote) :
    ∀ (idxs : List Nat) (notes : List MelodyNote) (g : Rng),
      List.Forall₂ (NoteFrame scale) notes base →
      List.Forall₂ (NoteFrame scale) (mutateNotesGo scale idxs notes g).1 base
  | [], _, _, h => h
  | idx :: rest, notes, g, h => by
    simp only [mutateNotesGo]
    apply mutateNotesGo_frame scale hs base rest _ _
    rcases List.forall₂_iff_get.mp h with ⟨hlen, hget⟩
    apply List.forall₂_iff_get.mpr
    refine ⟨by simpa using hlen, ?_⟩
    intro i h1 h2
    have h1' : i < notes.length := by simpa using h1
    by_cases hi : idx = i
    · subst hi
      rw [get_set_self_fin]
      have hgd : notes.getD idx default = notes.get ⟨idx, h1'⟩ := by
        rw [List.getD_eq_getElem?_getD, List.getElem?_eq_getElem h1']
        rfl
      rw [hgd]
      have hf := hget idx h1' h2
      exact ⟨hf.1, hf.2.1, hf.2.2.1, Or.inr (snapToScale_mem hs _)⟩
    · rw [get_set_ne_fin notes hi _ _ h1']
      exact hget i h1' h2

theorem optStep_frame (scale : List Int) (hs : scale ≠ []) (base : Melody)
    (g : Rng) :
    List.Forall₂ (NoteFrame scale) (optStep scale base g).1.notes base.notes := by
  simp only [optStep]
  exact mutateNotesGo_frame scale hs base.notes _ base.notes _
    (forall₂_frame_refl scale base.notes)

theorem optLoop_frame (scale : List Int) (hs : scale ≠ []) (melody : Melody) :
    ∀ (k : Nat) (best : Melody) (bs : ℚ) (g : Rng),
      List.Forall₂ (NoteFrame scale) best.notes melody.notes →
      List.Forall₂ (NoteFrame scale)
        (optLoop scale melody k best bs g).1.notes melody.notes
  | 0, _, _, _, h => h
  | k + 1, best, bs, g, h => by
    simp only [optLoop]
    by_cases hc : bs < calculate_uniqueness (optStep scale melody g).1
    · rw [if_pos hc]
      exact optLoop_frame scale hs melody k _ _ _ (optStep_frame scale hs melody g)
    · rw [if_neg hc]
      by_cases hr : (randFloat (optStep scale melody g).2).1 < 1/10
      · rw [if_pos hr]
        exact optLoop_frame scale hs melody k _ _ _ (optStep_frame scale hs melody g)
      · rw [if_neg hr]
        exact optLoop_frame scale hs melody k _ _ _ h

theorem optimize_melody_frame_aux (melody : Melody) (k : Nat) (g : Rng) :
    List.Forall₂
      (NoteFrame (get_scale_notes melody.params.root_note melody.params.mode
        melody.params.octave))
      (optimize_melody melody k g).1.notes melody.notes := by
  have h := optLoop_frame
    (get_scale_notes melody.params.root_note melody.params.mode
      melody.params.octave)
    (get_scale_notes_ne_nil _ _ _) melody k melody
    (calculate_uniqueness melody) g (forall₂_frame_refl _ _)
  exact h

/-- C9: the optimizer never changes the number of notes, nor any note's
start time, duration or velocity; each pitch is either unchanged or a
member of the scale derived from the melody's params. -/
theorem optimize_melody_frame (melody : Melody) (k : Nat) (g : Rng) :
    (optimize_melody melody k g).1.notes.length = melody.notes.length ∧
    List.Forall₂
      (NoteFrame (get_scale_notes melody.params.root_note melody.params.mode
        melody.params.octave))
      (optimize_melody melody k g).1.notes melody.notes :=
  have h := optimize_melody_frame_aux melody k g
  ⟨h.length_eq, h⟩

/-- Occurrences of interval signature `sig` among a motif list. -/
def hashCount (sig : List Int) : List Motif → Nat
  | [] => 0
  | m :: rest => (if m.get_hash = sig then 1 else 0) + hashCount sig rest

/-- Occurrences of `sig` among the ghost ledger increments. -/
def ledgerCount (sig : List Int) : List (Nat × List Int) → Nat
  | [] => 0
  | e :: rest => (if e.2 = sig then 1 else 0) + ledgerCount sig rest

theorem hashCount_append (sig : List Int) :
    ∀ l1 l2 : List Motif,
      hashCount sig (l1 ++ l2) = hashCount sig l1 + hashCount sig l2
  | [], l2 => by simp [hashCount]
  | m :: rest, l2 => by
    simp only [List.cons_append, List.append_eq, hashCount,
      hashCount_append sig rest l2]
    omega

theorem ledgerCount_append (sig : List Int) :
    ∀ l1 l2 : List (Nat × List Int),
      ledgerCount sig (l1 ++ l2) = ledgerCount sig l1 + ledgerCount sig l2
  | [], l2 => by simp [ledgerCount]
  | e :: rest, l2 => by
    simp only [List.cons_append, List.append_eq, ledgerCount,
      ledgerCount_append sig rest l2]
    omega

theorem countOf_bumpCount (h sig : List Int) :
    ∀ c : List (List Int × Nat),
      countOf (bumpCount c h) sig =
        countOf c sig + (if h = sig then 1 else 0)
  | [] => by
    by_cases he : h = sig
    · subst he; simp [bumpCount, countOf]
    · simp [bumpCount, countOf, he, Ne.symm he]
  | (k, v) :: rest => by
    by_cases hk : k = h
    · subst hk
      by_cases he : k = sig
      · subst he; simp [bumpCount, countOf]
      · simp [bumpCount, countOf, he]
    · by_cases he : k = sig
      · subst he
        simp only [bumpCount, if_neg hk, countOf, if_pos rfl]
        have : ¬ h = k := fun hh => hk hh.symm
        simp [this]
      · simp only [bumpCount, if_neg hk, countOf, if_neg he]
        exact countOf_bumpCount h sig rest

/-- The repetition-cap invariant carried through the assembly loop (C3):
per-signature motif occurrences are bounded by the ledger count and by
the cap, the ledger equals the ghost increment log, and at most one motif
is appended per increment. -/
def LedgerInv (k : Nat) (s : GenState) : Prop :=
  (∀ sig, hashCount sig s.melody_motifs ≤ countOf s.pattern_counts sig) ∧
  (∀ sig, hashCount sig s.melody_motifs ≤ k) ∧
  (∀ sig, countOf s.pattern_counts sig = ledgerCount sig s.ghost_ledger) ∧
  s.melody_motifs.length ≤ s.ghost_ledger.length

theorem genAppend_ledger_inv (params : MelodyParams) (bpm : Int)
    (s : GenState) (sel : Motif × List Motif × Rng × Nat)
    (h : LedgerInv params.max_repetition s) :
    LedgerInv params.max_repetition (genAppend params bpm s sel) := by
  obtain ⟨h1, h2, h3, h4⟩ := h
  have hcnt := fun sig => countOf_bumpCount sel.1.get_hash sig s.pattern_counts
  by_cases hc : countOf (bumpCount s.pattern_counts sel.1.get_hash)
      sel.1.get_hash ≤ params.max_repetition
  · have hm : (genAppend params bpm s sel).melody_motifs =
        s.melody_motifs ++ [sel.1] := by
      simp only [genAppend]
      rw [if_pos hc]
    have hp : (genAppend params bpm s sel).pattern_counts =
        bumpCount s.pattern_counts sel.1.get_hash := rfl
    have hl : (genAppend params bpm s sel).ghost_ledger =
        s.ghost_ledger ++ [(sel.1.uid, sel.1.get_hash)] := rfl
    refine ⟨?_, ?_, ?_, ?_⟩
    · intro sig
      rw [hm, hp, hashCount_append, hcnt sig]
      have := h1 sig
      simp only [hashCount]
      by_cases he : sel.1.get_hash = sig
      · simp only [if_pos he]; omega
      · simp only [if_neg he]; omega
    · intro sig
      rw [hm, hashCount_append]
      simp only [hashCount]
      by_cases he : sel.1.get_hash = sig
      · subst he
        have hb := hcnt sel.1.get_hash
        have hf : (if sel.1.get_hash = sel.1.get_hash then (1 : Nat) else 0) = 1 :=
          if_pos rfl
        have := h1 sel.1.get_hash
        omega
      · simp only [if_neg he]
        have := h2 sig
        omega
    · intro sig
      rw [hp, hl, hcnt sig, ledgerCount_append, h3 sig]
      simp only [ledgerCount]
      omega
    · rw [hm, hl]
      simp only [List.length_append, List.length_singleton]
      omega
  · have hm : (genAppend params bpm s sel).melody_motifs = s.melody_motifs := by
      simp only [genAppend]
      rw [if_neg hc]
    have hp : (genAppend params bpm s sel).pattern_counts =
        bumpCount s.pattern_counts sel.1.get_hash := rfl
    have hl : (genAppend params bpm s sel).ghost_ledger =
        s.ghost_ledger ++ [(sel.1.uid, sel.1.get_hash)] := rfl
    refine ⟨?_, ?_, ?_, ?_⟩
    · intro sig
      rw [hm, hp, hcnt sig]
      have := h1 sig
      omega
    · intro sig
      rw [hm]
      exact h2 sig
    · intro sig
      rw [hp, hl, hcnt sig, ledgerCount_append, h3 sig]
      simp only [ledgerCount]
      omega
    · rw [hm, hl]
      simp only [List.length_append, List.length_singleton]
      omega

theorem genLoop_ledger_inv (params : MelodyParams) (scale : List Int)
    (bpm tb : Int) :
    ∀ (fuel : Nat) (s : GenState), LedgerInv params.max_repetition s →
      LedgerInv params.max_repetition (genLoop params scale bpm tb fuel s)
  | 0, _, h => h
  | fuel + 1, s, h => by
    simp only [genLoop]
    by_cases hc : s.current_time < ((tb : Int) : ℚ)
    · rw [if_pos hc]
      exact genLoop_ledger_inv params scale bpm tb fuel _
        (genAppend_ledger_inv params bpm s _ h)
    · rw [if_neg hc]
      exact h

theorem optLoop_motifs (scale : List Int) (melody : Melody) :
    ∀ (k : Nat) (best : Melody) (bs : ℚ) (g : Rng),
      best.motifs = melody.motifs →
      (optLoop scale melody k best bs g).1.motifs = melody.motifs
  | 0, _, _, _, h => h
  | k + 1, best, bs, g, h => by
    simp only [optLoop]
    by_cases hc : bs < calculate_uniqueness (optStep scale melody g).1
    · rw [if_pos hc]
      exact optLoop_motifs scale melody k _ _ _ rfl
    · rw [if_neg hc]
      by_cases hr : (randFloat (optStep scale melody g).2).1 < 1/10
      · rw [if_pos hr]
        exact optLoop_motifs scale melody k _ _ _ rfl
      · rw [if_neg hr]
        exact optLoop_motifs scale melody k _ _ _ h

theorem optimize_melody_motifs (m : Melody) (k : Nat) (g : Rng) :
    (optimize_melody m k g).1.motifs = m.motifs :=
  optLoop_motifs _ m k m (calculate_uniqueness m) g rfl

theorem generate_melody_motifs_eq (params : MelodyParams) (seed : Option Int)
    (g : Rng) :
    (generate_melody params seed g).motifs =
      (generate_melody_run params seed g).2.1.melody_motifs :=
  optimize_melody_motifs _ 10 _

/-- C3: in any generated melody, no interval-signature hash occurs more
than `max_repetition` times among the motifs actually appended to the
melody; every candidate (appended or discarded) increments the ledger
(the final per-signature ledger counts equal the ghost increment log, and
the appended motifs never outnumber the increments); and each loop
iteration advances `current_time` by at least one measure even when the
candidate is discarded. -/
theorem generate_melody_repetition_cap (params : MelodyParams)
    (seed : Option Int) (g : Rng) :
    (∀ sig, hashCount sig (generate_melody params seed g).motifs ≤
      params.max_repetition) ∧
    (∀ sig,
      countOf (generate_melody_run params seed g).2.1.pattern_counts sig =
        ledgerCount sig (generate_melody_run params seed g).2.1.ghost_ledger) ∧
    (generate_melody_run params seed g).2.1.melody_motifs.length ≤
      (generate_melody_run params seed g).2.1.ghost_ledger.length ∧
    (∀ (scale : List Int) (s : GenState),
      s.current_time + ((params.time_signature.1 : Int) : ℚ) ≤
        (genStep params scale params.time_signature.1 s).current_time) := by
  have hinv : LedgerInv params.max_repetition
      (generate_melody_run params seed g).2.1 := by
    refine genLoop_ledger_inv params _ _ _ _ _ ?_
    exact ⟨fun sig => le_refl 0, fun sig => Nat.zero_le _, fun sig => rfl,
      le_refl 0⟩
  refine ⟨?_, hinv.2.2.1, hinv.2.2.2, ?_⟩
  · intro sig
    rw [generate_melody_motifs_eq]
    exact le_trans (hinv.2.1 sig) (le_refl _)
  · intro scale s
    show s.current_time + ((params.time_signature.1 : Int) : ℚ) ≤
      s.current_time + max _ ((params.time_signature.1 : Int) : ℚ)
    exact add_le_add_left (le_max_right _ _) _

/-- The provenance invariant carried through the assembly loop (C10):
uids stay positive, the pool keeps the initial motif `m0` at its head,
every motif/note/ledger increment that reaches the melody comes from a
loop-created motif (uid ≠ 0), and the ghost note log mirrors the note
list. -/
def ProvInv (m0 : Motif) (s : GenState) : Prop :=
  1 ≤ s.next_uid ∧
  s.motifs_used ≠ [] ∧
  s.motifs_used.headD default = m0 ∧
  (∀ m ∈ s.melody_motifs, m.uid ≠ 0) ∧
  (∀ p ∈ s.ghost_notes, p.1 ≠ 0) ∧
  (∀ e ∈ s.ghost_ledger, e.1 ≠ 0) ∧
  s.melody_notes = s.ghost_notes.map (·.2)

theorem genSelect_shape (params : MelodyParams) (scale : List Int)
    (s : GenState) :
    (genSelect params scale s).1.uid = s.next_uid ∧
    (genSelect params scale s).2.2.2 = s.next_uid + 1 ∧
    ((genSelect params scale s).2.1 = s.motifs_used ∨
      (genSelect params scale s).2.1 =
        s.motifs_used ++ [(genSelect params scale s).1]) := by
  simp only [genSelect]
  by_cases h1 : params.use_motifs && !s.motifs_used.isEmpty
  · rw [if_pos h1]
    by_cases h2 : (randFloat s.g).1 < params.development_probability
    · rw [if_pos h2]
      exact ⟨rfl, rfl, Or.inl rfl⟩
    · rw [if_neg h2]
      exact ⟨rfl, rfl, Or.inr rfl⟩
  · rw [if_neg h1]
    exact ⟨rfl, rfl, Or.inr rfl⟩

theorem headD_append_singleton {α : Type} [Inhabited α] :
    ∀ (l : List α) (x : α), l ≠ [] → (l ++ [x]).headD default = l.headD default
  | [], _, h => absurd rfl h
  | _ :: _, _, _ => rfl

theorem genStep_prov (params : MelodyParams) (scale : List Int) (bpm : Int)
    (s : GenState) (m0 : Motif) (h : ProvInv m0 s) :
    ProvInv m0 (genStep params scale bpm s) := by
  obtain ⟨h1, h2, h3, h4, h5, h6, h7⟩ := h
  obtain ⟨hu, hn, hp⟩ := genSelect_shape params scale s
  show ProvInv m0 (genAppend params bpm s (genSelect params scale s))
  have huid0 : (genSelect params scale s).1.uid ≠ 0 := by omega
  have hgnext : (genAppend params bpm s (genSelect params scale s)).next_uid =
      s.next_uid + 1 := hn
  have hgpool : (genAppend params bpm s (genSelect params scale s)).motifs_used =
      (genSelect params scale s).2.1 := rfl
  have hgledger :
      (genAppend params bpm s (genSelect params scale s)).ghost_ledger =
        s.ghost_ledger ++
          [((genSelect params scale s).1.uid,
            (genSelect params scale s).1.get_hash)] := rfl
  refine ⟨by omega, ?_, ?_, ?_, ?_, ?_, ?_⟩
  · rw [hgpool]
    rcases hp with hp | hp
    · rw [hp]; exact h2
    · rw [hp]; simp
  · rw [hgpool]
    rcases hp with hp | hp
    · rw [hp]; exact h3
    · rw [hp, headD_append_singleton _ _ h2]; exact h3
  · by_cases hc : countOf (bumpCount s.pattern_counts
        (genSelect params scale s).1.get_hash)
        (genSelect params scale s).1.get_hash ≤ params.max_repetition
    · have hm : (genAppend params bpm s (genSelect params scale s)).melody_motifs
          = s.melody_motifs ++ [(genSelect params scale s).1] := by
        simp only [genAppend]
        rw [if_pos hc]
      rw [hm]
      intro m hm2
      rcases List.mem_append.mp hm2 with hmem | hmem
      · exact h4 m hmem
      · rw [List.mem_singleton.mp hmem]
        exact huid0
    · have hm : (genAppend params bpm s (genSelect params scale s)).melody_motifs
          = s.melody_motifs := by
        simp only [genAppend]
        rw [if_neg hc]
      rw [hm]
      exact h4
  · by_cases hc : countOf (bumpCount s.pattern_counts
        (genSelect params scale s).1.get_hash)
        (genSelect params scale s).1.get_hash ≤ params.max_repetition
    · have hm : (genAppend params bpm s (genSelect params scale s)).ghost_notes
          = s.ghost_notes ++
            (((genSelect params scale s).1.notes.map fun n =>
              ({ n with start_time := s.current_time +
                  (n.start_time -
                    ((genSelect params scale s).1.notes.headD default).start_time) } :
                MelodyNote)).map fun n =>
              ((genSelect params scale s).1.uid, n)) := by
        simp only [genAppend]
        rw [if_pos hc]
      rw [hm]
      intro p hp2
      rcases List.mem_append.mp hp2 with hmem | hmem
      · exact h5 p hmem
      · rcases List.mem_map.mp hmem with ⟨n, _, hn2⟩
        rw [← hn2]
        exact huid0
    · have hm : (genAppend params bpm s (genSelect params scale s)).ghost_notes
          = s.ghost_notes := by
        simp only [genAppend]
        rw [if_neg hc]
      rw [hm]
      exact h5
  · rw [hgledger]
    intro e he
    rcases List.mem_append.mp he with hmem | hmem
    · exact h6 e hmem
    · rw [List.mem_singleton.mp hmem]
      exact huid0
  · by_cases hc : countOf (bumpCount s.pattern_counts
        (genSelect params scale s).1.get_hash)
        (genSelect params scale s).1.get_hash ≤ params.max_repetition
    · have hm : (genAppend params bpm s (genSelect params scale s)).melody_notes
          = s.melody_notes ++
            ((genSelect params scale s).1.notes.map fun n =>
              ({ n with start_time := s.current_time +
                  (n.start_time -
                    ((genSelect params scale s).1.notes.headD default).start_time) } :
                MelodyNote)) := by
        simp only [genAppend]
        rw [if_pos hc]
      have hg : (genAppend params bpm s (genSelect params scale s)).ghost_notes
          = s.ghost_notes ++
            (((genSelect params scale s).1.notes.map fun n =>
              ({ n with start_time := s.current_time +
                  (n.start_time -
                    ((genSelect params scale s).1.notes.headD default).start_time) } :
                MelodyNote)).map fun n =>
              ((genSelect params scale s).1.uid, n)) := by
        simp only [genAppend]
        rw [if_pos hc]
      rw [hm, hg, List.map_append, List.map_map]
      simp [h7]
    · have hm : (genAppend params bpm s (genSelect params scale s)).melody_notes
          = s.melody_notes := by
        simp only [genAppend]
        rw [if_neg hc]
      have hg : (genAppend params bpm s (genSelect params scale s)).ghost_notes
          = s.ghost_notes := by
        simp only [genAppend]
        rw [if_neg hc]
      rw [hm, hg]
      exact h7

theorem genLoop_prov (params : MelodyParams) (scale : List Int)
    (bpm tb : Int) (m0 : Motif) :
    ∀ (fuel : Nat) (s : GenState), ProvInv m0 s →
      ProvInv m0 (genLoop params scale bpm tb fuel s)
  | 0, _, h => h
  | fuel + 1, s, h => by
    simp only [genLoop]
    by_cases hc : s.current_time < ((tb : Int) : ℚ)
    · rw [if_pos hc]
      exact genLoop_prov params scale bpm tb m0 fuel _
        (genStep_prov params scale bpm s m0 h)
    · rw [if_neg hc]
      exact h

/-- C10: the pre-loop initial motif (uid 0) sits at the head of the
development pool, while every motif appended to the returned melody,
every ledger increment, and every note appended to the draft note list
(which the ghost log mirrors exactly) comes from a motif created inside
the loop (uid ≠ 0) — the initial motif itself is never appended, hashed
into the ledger, or copied into the note list. -/
theorem generate_melody_initial_motif_isolated (params : MelodyParams)
    (seed : Option Int) (g : Rng) :
    ((generate_melody_run params seed g).2.1.motifs_used.headD default).uid
      = 0 ∧
    (∀ m ∈ (generate_melody params seed g).motifs, m.uid ≠ 0) ∧
    (∀ e ∈ (generate_melody_run params seed g).2.1.ghost_ledger, e.1 ≠ 0) ∧
    (generate_melody_run params seed g).2.1.melody_notes =
      (generate_melody_run params seed g).2.1.ghost_notes.map (·.2) ∧
    (∀ p ∈ (generate_melody_run params seed g).2.1.ghost_notes, p.1 ≠ 0) := by
  have hinv : ProvInv
      (generate_motif 0
        (get_scale_notes params.root_note params.mode params.octave)
        ((get_scale_notes params.root_note params.mode params.octave).getD 2 0)
        params.motif_length params.contour params
        (match seed with | some s => mkRng s | none => g)).1
      (generate_melody_run params seed g).2.1 := by
    refine genLoop_prov params _ _ _ _ _ _ ?_
    exact ⟨le_refl 1, by simp, rfl, by simp, by simp, by simp, rfl⟩
  refine ⟨?_, ?_, hinv.2.2.2.2.2.1, hinv.2.2.2.2.2.2, hinv.2.2.2.2.1⟩
  · rw [hinv.2.2.1]
    rfl
  · intro m hm
    rw [generate_melody_motifs_eq] at hm
    exact hinv.2.2.2.1 m hm

/-- Parameters for the concrete C10 witness run: a two-second melody with
two-note motifs. -/
def paramsC10 : MelodyParams :=
  { duration_seconds := 2, tempo := 60, motif_length := 2 }

/-- Witness for C10 on a concrete short generation: the pool head is the
uid-0 initial motif, while the appended motif, the ledger increment and
the appended note provenance all carry nonzero uids. -/
theorem generate_melody_initial_motif_isolated_witness :
    ((generate_melody_run paramsC10 (some 3) ⟨0⟩).2.1.motifs_used.headD
      default).uid = 0 ∧
    ((generate_melody paramsC10 (some 3) ⟨0⟩).motifs.headD default).uid ≠ 0 ∧
    ((generate_melody_run paramsC10 (some 3) ⟨0⟩).2.1.ghost_ledger.headD
      default).1 ≠ 0 ∧
    (generate_melody_run paramsC10 (some 3) ⟨0⟩).2.1.melody_notes =
      (generate_melody_run paramsC10 (some 3) ⟨0⟩).2.1.ghost_notes.map (·.2) ∧
    ((generate_melody_run paramsC10 (some 3) ⟨0⟩).2.1.ghost_notes.headD
      default).1 ≠ 0 := by
  obtain ⟨w1, w2, w3, w4, w5⟩ :=
    generate_melody_initial_motif_isolated paramsC10 (some 3) ⟨0⟩
  exact ⟨w1, w2 _ (by decide), w3 _ (by decide), w4, w5 _ (by decide)⟩

/-! ### C2: what the optimizer's candidates are cloned from -/

/-- A fixed eight-note draft melody over the default parameters, used to
compare the source optimizer with the claim's description of it. -/
def melodyOptEx : Melody :=
  { notes :=
      [⟨72, 0, 1, 64⟩, ⟨76, 1, 1, 64⟩, ⟨74, 2, 1, 64⟩, ⟨79, 3, 1, 64⟩,
       ⟨72, 4, 1, 64⟩, ⟨76, 5, 1, 64⟩, ⟨74, 6, 1, 64⟩, ⟨79, 7, 1, 64⟩] }

/-- C2 counterexample: the source optimizer (candidates cloned from the
*original input* melody) and the claim's optimizer (candidates cloned
from the current best melody) disagree on a concrete run — after an
accepted mutation, the claim's version mutates the accepted state while
the source re-mutates the input, and the results differ. -/
theorem optimize_melody_clone_cex :
    (optimize_melody melodyOptEx 3 ⟨1⟩).1 ≠
      (optimize_melody_claimed melodyOptEx 3 ⟨1⟩).1 := by
  decide

theorem getD_mem_of_lt {α : Type} (l : List α) (i : Nat)
    (d : α) (h : i < l.length) : l.getD i d ∈ l := by
  rw [List.getD_eq_getElem?_getD, List.getElem?_eq_getElem h]
  simp only [Option.getD_some]
  exact List.getElem_mem h

theorem choose_mem {α : Type} (l : List α) (d : α) (g : Rng) (h : l ≠ []) :
    (choose l d g).1 ∈ l := by
  have hlen : 0 < l.length := List.length_pos.mpr h
  exact getD_mem_of_lt l _ d (Nat.mod_lt _ hlen)

theorem randIntNat_bounds (a b : Nat) (g : Rng) (h : a ≤ b) :
    a ≤ (randIntNat a b g).1 ∧ (randIntNat a b g).1 ≤ b := by
  simp only [randIntNat, if_pos h]
  have hm : g.next.1 % (b - a + 1) < b - a + 1 := Nat.mod_lt _ (by omega)
  omega

theorem nodup_getD_not_mem_eraseIdx :
    ∀ (l : List Nat) (i : Nat), l.Nodup → i < l.length →
      l.getD i 0 ∉ l.eraseIdx i
  | [], i, _, h => by simp at h
  | a :: rest, 0, hn, _ => by
    simp only [List.getD_cons_zero, List.eraseIdx_cons_zero]
    exact (List.nodup_cons.mp hn).1
  | a :: rest, i + 1, hn, h => by
    simp only [List.getD_cons_succ, List.eraseIdx_cons_succ, List.mem_cons]
    rintro (heq | hmem)
    · have hi : i < rest.length := by simpa using h
      have hmem2 : rest.getD i 0 ∈ rest := getD_mem_of_lt rest i 0 hi
      rw [heq] at hmem2
      exact (List.nodup_cons.mp hn).1 hmem2
    · exact nodup_getD_not_mem_eraseIdx rest i (List.nodup_cons.mp hn).2
        (by simpa using h) hmem

theorem sampleGo_spec :
    ∀ (k : Nat) (avail : List Nat) (g : Rng), k ≤ avail.length →
      avail.Nodup →
      (sampleGo k avail g).1.length = k ∧ (sampleGo k avail g).1.Nodup ∧
        ∀ x ∈ (sampleGo k avail g).1, x ∈ avail
  | 0, _, _, _, _ => ⟨rfl, List.nodup_nil, by simp [sampleGo]⟩
  | k + 1, avail, g, hk, hn => by
    have hpos : 0 < avail.length := by omega
    have hi : g.next.1 % avail.length < avail.length := Nat.mod_lt _ hpos
    have hlen : (avail.eraseIdx (g.next.1 % avail.length)).length =
        avail.length - 1 := List.length_eraseIdx_of_lt hi
    obtain ⟨ih1, ih2, ih3⟩ :=
      sampleGo_spec k (avail.eraseIdx (g.next.1 % avail.length)) g.next.2
        (by omega) (hn.eraseIdx _)
    have hshape : (sampleGo (k + 1) avail g).1 =
        avail.getD (g.next.1 % avail.length) 0 ::
          (sampleGo k (avail.eraseIdx (g.next.1 % avail.length)) g.next.2).1 :=
      rfl
    refine ⟨?_, ?_, ?_⟩
    · rw [hshape]
      simp [ih1]
    · rw [hshape]
      refine List.nodup_cons.mpr ⟨?_, ih2⟩
      intro hmem
      exact nodup_getD_not_mem_eraseIdx avail _ hn hi (ih3 _ hmem)
    · rw [hshape]
      intro x hx
      rcases List.mem_cons.mp hx with hx | hx
      · rw [hx]
        exact getD_mem_of_lt avail _ 0 hi
      · exact List.mem_of_mem_eraseIdx (ih3 x hx)

theorem sampleRange_spec (n k : Nat) (g : Rng) (hk : k ≤ n) :
    (sampleRange n k g).1.length = k ∧ (sampleRange n k g).1.Nodup ∧
      ∀ x ∈ (sampleRange n k g).1, x < n := by
  obtain ⟨h1, h2, h3⟩ :=
    sampleGo_spec k (List.range n) g (by simpa using hk) (List.nodup_range n)
  exact ⟨h1, h2, fun x hx => List.mem_range.mp (h3 x hx)⟩

theorem getD_set_self {α : Type} [Inhabited α] (l : List α) (i : Nat) (v : α)
    (h : i < l.length) : (l.set i v).getD i default = v := by
  rw [List.getD_eq_getElem?_getD, List.getElem?_set_self h]
  rfl

theorem getD_set_ne {α : Type} [Inhabited α] (l : List α) {i j : Nat}
    (h : i ≠ j) (v : α) : (l.set i v).getD j default = l.getD j default := by
  rw [List.getD_eq_getElem?_getD, List.getElem?_set_ne h,
    ← List.getD_eq_getElem?_getD]

theorem mutateNotesGo_spec (scale : List Int) :
    ∀ (idxs : List Nat) (notes : List MelodyNote) (g : Rng),
      idxs.Nodup → (∀ x ∈ idxs, x < notes.length) →
      (mutateNotesGo scale idxs notes g).1.length = notes.length ∧
      (∀ i, i ∉ idxs →
        (mutateNotesGo scale idxs notes g).1.getD i default =
          notes.getD i default) ∧
      (∀ i ∈ idxs, ∃ d ∈ ([-2, -1, 1, 2] : List Int),
        (mutateNotesGo scale idxs notes g).1.getD i default =
          { notes.getD i default with
            pitch := snapToScale scale
              ((notes.getD i default).pitch + d) })
  | [], notes, g, _, _ => ⟨rfl, fun _ _ => rfl, by simp⟩
  | idx :: rest, notes, g, hn, hlt => by
    obtain ⟨hni, hnr⟩ := List.nodup_cons.mp hn
    have hidx : idx < notes.length := hlt idx (List.mem_cons_self _ _)
    obtain ⟨ih1, ih2, ih3⟩ := mutateNotesGo_spec scale rest
      (notes.set idx
        ⟨snapToScale scale ((notes.getD idx default).pitch +
            (choose [-2, -1, 1, 2] 0 g).1),
          (notes.getD idx default).start_time,
          (notes.getD idx default).duration,
          (notes.getD idx default).velocity⟩)
      (choose [-2, -1, 1, 2] 0 g).2 hnr
      (by
        intro x hx
        rw [List.length_set]
        exact hlt x (List.mem_cons_of_mem _ hx))
    have hshape : (mutateNotesGo scale (idx :: rest) notes g).1 =
        (mutateNotesGo scale rest
          (notes.set idx
            ⟨snapToScale scale ((notes.getD idx default).pitch +
                (choose [-2, -1, 1, 2] 0 g).1),
              (notes.getD idx default).start_time,
              (notes.getD idx default).duration,
              (notes.getD idx default).velocity⟩)
          (choose [-2, -1, 1, 2] 0 g).2).1 := rfl
    refine ⟨?_, ?_, ?_⟩
    · rw [hshape, ih1, List.length_set]
    · intro i hi
      have hi1 : i ≠ idx := fun h => hi (h ▸ List.mem_cons_self _ _)
      have hi2 : i ∉ rest := fun h => hi (List.mem_cons_of_mem _ h)
      rw [hshape, ih2 i hi2, getD_set_ne notes (fun h => hi1 h.symm)]
    · intro i hi
      rcases List.mem_cons.mp hi with hi | hi
      · subst hi
        refine ⟨(choose [-2, -1, 1, 2] 0 g).1,
          choose_mem _ _ _ (by simp), ?_⟩
        rw [hshape, ih2 i hni, getD_set_self notes i _ hidx]
      · obtain ⟨d, hd, hde⟩ := ih3 i hi
        have hne : idx ≠ i := fun h => hni (h ▸ hi)
        refine ⟨d, hd, ?_⟩
        rw [hshape, hde, getD_set_ne notes hne]

/-- Modelled from the spec (§4.7) as amended: what one optimizer
candidate is, relative to the *original input* melody `melody` — its
note list with a non-empty subset of at most `max 1 (n/4)` distinct
positions repitched by `pitch + d`, `d ∈ {-2,-1,1,2}`, snapped to the
scale, all other fields untouched. -/
def CandidateSpec (melody : Melody) (scale : List Int) (cand : Melody) :
    Prop :=
  cand.motifs = melody.motifs ∧ cand.params = melody.params ∧
  ∃ idxs : List Nat, idxs.Nodup ∧ (∀ i ∈ idxs, i < melody.notes.length) ∧
    (melody.notes ≠ [] → 1 ≤ idxs.length) ∧
    idxs.length ≤ max 1 (melody.notes.length / 4) ∧
    cand.notes.length = melody.notes.length ∧
    (∀ i, i ∉ idxs →
      cand.notes.getD i default = melody.notes.getD i default) ∧
    (∀ i ∈ idxs, ∃ d ∈ ([-2, -1, 1, 2] : List Int),
      cand.notes.getD i default =
        { melody.notes.getD i default with
          pitch := snapToScale scale
            ((melody.notes.getD i default).pitch + d) })

theorem optStep_candidateSpec (scale : List Int) (base : Melody) (g : Rng) :
    CandidateSpec base scale (optStep scale base g).1 := by
  obtain ⟨hb1, hb2⟩ := randIntNat_bounds 1
    (max 1 (base.notes.length / 4)) g (le_max_left 1 _)
  obtain ⟨hs1, hs2, hs3⟩ := sampleRange_spec base.notes.length
    (min (randIntNat 1 (max 1 (base.notes.length / 4)) g).1 base.notes.length)
    (randIntNat 1 (max 1 (base.notes.length / 4)) g).2 (min_le_right _ _)
  obtain ⟨hm1, hm2, hm3⟩ := mutateNotesGo_spec scale
    (sampleRange base.notes.length
      (min (randIntNat 1 (max 1 (base.notes.length / 4)) g).1
        base.notes.length)
      (randIntNat 1 (max 1 (base.notes.length / 4)) g).2).1
    base.notes
    (sampleRange base.notes.length
      (min (randIntNat 1 (max 1 (base.notes.length / 4)) g).1
        base.notes.length)
      (randIntNat 1 (max 1 (base.notes.length / 4)) g).2).2
    hs2 hs3
  refine ⟨rfl, rfl,
    (sampleRange base.notes.length
      (min (randIntNat 1 (max 1 (base.notes.length / 4)) g).1
        base.notes.length)
      (randIntNat 1 (max 1 (base.notes.length / 4)) g).2).1,
    hs2, hs3, ?_, ?_, hm1, hm2, hm3⟩
  · intro hne
    have hn : 1 ≤ base.notes.length := by
      cases hb : base.notes with
      | nil => exact absurd hb hne
      | cons a t => simp [hb]
    rw [hs1]
    omega
  · rw [hs1]
    omega

theorem optLoop_candidates (scale : List Int) (melody : Melody) :
    ∀ (k : Nat) (best : Melody) (bs : ℚ) (g : Rng),
      ∀ cand ∈ (optLoop scale melody k best bs g).2.2.2,
        CandidateSpec melody scale cand
  | 0, _, _, _ => by
    intro cand hc
    simp [optLoop] at hc
  | k + 1, best, bs, g => by
    intro cand hc
    simp only [optLoop] at hc
    by_cases h1 : bs < calculate_uniqueness (optStep scale melody g).1
    · rw [if_pos h1] at hc
      rcases List.mem_cons.mp hc with hx | hx
      · rw [hx]
        exact optStep_candidateSpec scale melody g
      · exact optLoop_candidates scale melody k _ _ _ cand hx
    · rw [if_neg h1] at hc
      by_cases h2 : (randFloat (optStep scale melody g).2).1 < 1/10
      · rw [if_pos h2] at hc
        rcases List.mem_cons.mp hc with hx | hx
        · rw [hx]
          exact optStep_candidateSpec scale melody g
        · exact optLoop_candidates scale melody k _ _ _ cand hx
      · rw [if_neg h2] at hc
        rcases List.mem_cons.mp hc with hx | hx
        · rw [hx]
          exact optStep_candidateSpec scale melody g
        · exact optLoop_candidates scale melody k _ _ _ cand hx

/-- C2 (amended): each iteration of `optimize_melody` builds its
candidate by cloning the note list of the *original input* melody — not
the current best — and replacing a random non-empty subset of between 1
and `max 1 (n/4)` distinct note positions with scale-snapped `pitch + d`,
`d ∈ {-2,-1,1,2}`, leaving every other field unchanged. -/
theorem optimize_melody_candidates (melody : Melody) (k : Nat) (g : Rng) :
    ∀ cand ∈ (optimize_melody_run melody k g).2.2,
      CandidateSpec melody
        (get_scale_notes melody.params.root_note melody.params.mode
          melody.params.octave) cand := by
  intro cand hc
  exact optLoop_candidates _ melody k melody _ g cand hc

/-- A one-note melody over the default parameters, used as the concrete
C2 witness input. -/
def melodyOneNote : Melody := { notes := [⟨72, 0, 1, 64⟩] }

/-- Witness for C2 (amended) at a concrete one-iteration run. -/
theorem optimize_melody_candidates_witness :
    CandidateSpec melodyOneNote
      (get_scale_notes melodyOneNote.params.root_note
        melodyOneNote.params.mode melodyOneNote.params.octave)
      ((optimize_melody_run melodyOneNote 1 ⟨0⟩).2.2.headD default) :=
  optimize_melody_candidates melodyOneNote 1 ⟨0⟩ _ (by decide)

end Music
